import Mathlib

/-!
Verification of the MUSE ECG extractor (waveform decoding, lead assembly and
batch file discovery) against its specification.  The Python sources are
shallowly embedded: byte strings become lists of naturals, numpy arrays of
voltages become lists of rationals, exceptions become the error side of
Except, and the dynamically typed per-lead dictionary becomes an association
list whose values may hold either a sample series or the sentinel decoder
error string (the value np.array(error_string) produced by the source).
-/

deriving instance DecidableEq for Except

namespace ECG

/-- Whitespace for the purposes of str.strip. -/
def isPySpace (c : Char) : Bool :=
  c = ' ' ∨ c = '\t' ∨ c = '\n' ∨ c = '\r'

/-- Model of Python str.strip(): remove leading and trailing whitespace. -/
def pyStrip (s : String) : String :=
  String.mk (((s.toList.dropWhile isPySpace).reverse.dropWhile isPySpace).reverse)

/-- Model of Python str.upper() on the ASCII identifiers this format uses. -/
def pyUpper (s : String) : String :=
  String.mk (s.toList.map Char.toUpper)

/-- Model of Python str.lower() on the ASCII identifiers this format uses. -/
def pyLower (s : String) : String :=
  String.mk (s.toList.map Char.toLower)

/-- A value of two raw bytes read little-endian as a signed 16-bit integer,
as done by struct.unpack with format "h" on two bytes lo, hi. -/
def toInt16 (lo hi : Nat) : Int :=
  let u := lo + 256 * hi
  if u < 32768 then (u : Int) else (u : Int) - 65536

/-- struct.unpack of consecutive little-endian signed 16-bit integers:
consume the byte list two bytes at a time; a final dangling byte (or the
empty list) produces nothing. -/
def unpackInt16LE : List Nat → List Int
  | [] => []
  | [_] => []
  | lo :: hi :: rest => toInt16 lo hi :: unpackInt16LE rest

/-- A base64 text blob, modelled by its decoding outcome: valid base64 text
is represented by the byte list it decodes to, and text on which
base64.b64decode raises is represented by the exception message. -/
inductive Blob where
  | valid (bytes : List Nat)
  | invalid (msg : String)
deriving DecidableEq

/-- Model of base64.b64decode: yields the bytes of a valid blob and raises
(the error side) on an invalid one. -/
def b64decode : Blob → Except String (List Nat)
  | Blob.valid bs => Except.ok bs
  | Blob.invalid msg => Except.error msg

/-- The empty blob: base64 decoding of the empty string gives zero bytes. -/
def emptyBlob : Blob := Blob.valid []

/-- Embedding of decode_waveform (MUSE_ECG_Extractor.py lines 10-31):
base64-decode, keep the first 2*(length/2) bytes, unpack little-endian
signed 16-bit samples, multiply by the scale; any failure is caught and
turned into the sentinel error string built from the exception. -/
def decode_waveform (b64_data : Blob) (scale : ℚ) : Except String (List ℚ) :=
  match b64decode b64_data with
  | Except.ok binary_data =>
      let num_samples := binary_data.length / 2
      let samples := unpackInt16LE (binary_data.take (num_samples * 2))
      Except.ok (samples.map (fun s : Int => (s : ℚ) * scale))
  | Except.error e => Except.error ("[Error decoding waveform: " ++ e ++ "]")

/-- A value stored in the lead dictionary.  The source stores
np.array(decode_waveform(...)): a numeric sample series on success, and the
sentinel decoder error string (as a zero-dimensional string array) on
decode failure. -/
inductive Cell where
  | series (s : List ℚ)
  | errstr (e : String)
deriving DecidableEq

/-- The lead dictionary: insertion-ordered association list from lead name
to stored cell, like a Python dict. -/
abbrev Leads := List (String × Cell)

/-- Python dict membership-preserving read: first binding of the key. -/
def lookupLead : Leads → String → Option Cell
  | [], _ => none
  | (k1, c) :: rest, k => if k1 = k then some c else lookupLead rest k

/-- Python dict assignment: replace the value in place if the key exists,
append a fresh binding otherwise (insertion order semantics). -/
def updateLead : Leads → String → Cell → Leads
  | [], k, c => [(k, c)]
  | (k1, c1) :: rest, k, c =>
      if k1 = k then (k1, c) :: rest else (k1, c1) :: updateLead rest k c

/-- The twelve enumerated lead names, in the order of the source dict
literal (MUSE_ECG_Extractor.py lines 121-134). -/
def leadNames : List String :=
  ["I", "II", "III", "aVR", "aVL", "aVF", "V1", "V2", "V3", "V4", "V5", "V6"]

/-- The initial lead dictionary: every enumerated lead mapped to an empty
series (np.array([])). -/
def initLeads : Leads :=
  [("I", Cell.series []), ("II", Cell.series []), ("III", Cell.series []),
   ("aVR", Cell.series []), ("aVL", Cell.series []), ("aVF", Cell.series []),
   ("V1", Cell.series []), ("V2", Cell.series []), ("V3", Cell.series []),
   ("V4", Cell.series []), ("V5", Cell.series []), ("V6", Cell.series [])]

/-- A LeadData node of the document.  Each field is the text of the
corresponding child element, or none when the element is absent.  The
units-per-bit text is modelled by the rational it parses to. -/
structure LeadData where
  leadID : Option String
  waveFormData : Option Blob
  leadAmplitudeUnitsPerBit : Option ℚ

/-- A Waveform section: the text of its WaveformType child (none when the
element or its text is absent) and its LeadData descendants. -/
structure Waveform where
  waveformType : Option String
  leadData : List LeadData

/-- An XML document, reduced to the Waveform sections that
get_lead_data traverses. -/
structure Document where
  waveforms : List Waveform

/-- lead_id_elem.text.strip().upper() if lead_id_elem is not None else
the sentinel (MUSE_ECG_Extractor.py line 145). -/
def resolveLeadID : Option String → String
  | some t => pyUpper (pyStrip t)
  | none => "[Unknown LeadID]"

/-- waveform_elem.text.strip() if present, else the empty string
(line 146); the empty string is valid base64 for zero bytes. -/
def resolveBlob : Option Blob → Blob
  | some b => b
  | none => emptyBlob

/-- float(scale_elem.text.strip()) if present else 1.0 (line 151). -/
def resolveScale : Option ℚ → ℚ
  | some q => q
  | none => 1

/-- Processing of one LeadData node (lines 141-157): resolve the id, the
blob and the scale, and store the decode result keyed by the id when the
id is a current dictionary key, else drop the node with a diagnostic. -/
def processLeadData (leads : Leads) (ld : LeadData) : Leads :=
  let lead_id := resolveLeadID ld.leadID
  let waveform_text := resolveBlob ld.waveFormData
  if lead_id ∈ leads.map Prod.fst then
    let scale := resolveScale ld.leadAmplitudeUnitsPerBit
    match decode_waveform waveform_text scale with
    | Except.ok s => updateLead leads lead_id (Cell.series s)
    | Except.error e => updateLead leads lead_id (Cell.errstr e)
  else
    leads

/-- Processing of one Waveform section (lines 135-157):
waveform.find(WaveformType).text.lower() raises AttributeError when the
element (or its text) is absent; a section whose lowered type is not
"rhythm" is skipped entirely; otherwise every LeadData node is processed. -/
def processWaveform (leads : Leads) (wf : Waveform) : Except String Leads :=
  match wf.waveformType with
  | none => Except.error "AttributeError: NoneType object has no attribute lower"
  | some t =>
      if pyLower t ≠ "rhythm" then Except.ok leads
      else Except.ok (wf.leadData.foldl processLeadData leads)

/-- The section loop of get_lead_data: fold over all Waveform sections
starting from the fully seeded empty dictionary; a raised exception
escapes the loop. -/
def processDoc (doc : Document) : Except String Leads :=
  doc.waveforms.foldlM processWaveform initLeads

/-- Numpy elementwise combination of two one-dimensional arrays: equal
lengths combine pointwise; a length-one operand broadcasts across the
other; any other length mismatch raises ValueError. -/
def broadcastOp (f : ℚ → ℚ → ℚ) (a b : List ℚ) : Except String (List ℚ) :=
  if a.length = b.length then Except.ok (List.zipWith f a b)
  else if a.length = 1 then Except.ok (b.map (fun y => f a.headI y))
  else if b.length = 1 then Except.ok (a.map (fun x => f x b.headI))
  else Except.error "ValueError: operands could not be broadcast together"

/-- One derivation assignment leads[dst] = leads[k1] (op) leads[k2] with
numpy semantics: KeyError on a missing key, UFuncTypeError when either
operand holds the sentinel string array, broadcastOp otherwise.  The
additional scalar factors of the source lines 160-162 (negation and
division by two) are shape-preserving, so they are fused into f. -/
def binop (leads : Leads) (k1 k2 : String) (f : ℚ → ℚ → ℚ) (dst : String) :
    Except String Leads :=
  match lookupLead leads k1, lookupLead leads k2 with
  | some (Cell.series x), some (Cell.series y) =>
      match broadcastOp f x y with
      | Except.ok r => Except.ok (updateLead leads dst (Cell.series r))
      | Except.error e => Except.error e
  | some _, some _ =>
      Except.error "UFuncTypeError: ufunc did not contain a loop matching the signature"
  | none, _ => Except.error ("KeyError: " ++ k1)
  | _, none => Except.error ("KeyError: " ++ k2)

/-- The four unconditional derivation assignments of get_lead_data
(lines 159-162): III = II - I, aVR = -(I + II) / 2, aVL = I - II / 2,
aVF = II - I / 2, executed in source order. -/
def derive (leads0 : Leads) : Except String Leads :=
  match binop leads0 "II" "I" (fun x y => x - y) "III" with
  | Except.error e => Except.error e
  | Except.ok leads1 =>
    match binop leads1 "I" "II" (fun x y => -(x + y) / 2) "aVR" with
    | Except.error e => Except.error e
    | Except.ok leads2 =>
      match binop leads2 "I" "II" (fun x y => x - y / 2) "aVL" with
      | Except.error e => Except.error e
      | Except.ok leads3 => binop leads3 "II" "I" (fun x y => x - y / 2) "aVF"

/-- Embedding of get_lead_data (lines 107-164): seed the dictionary,
process every Waveform section, then unconditionally run the four
derivation assignments; any raised exception propagates to the caller. -/
def get_lead_data (doc : Document) : Except String Leads :=
  match processDoc doc with
  | Except.ok leads => derive leads
  | Except.error e => Except.error e

/-- Whether a computation returned normally (no exception). -/
def isOkE {α : Type} : Except String α → Bool
  | Except.ok _ => true
  | Except.error _ => false

/-- A filesystem entry: a file, or a directory with its children.  Inputs
to the batch boundary are modelled by the entries their paths resolve to. -/
inductive FS where
  | file (name : String)
  | dir (name : String) (children : List FS)

/-- All names in a forest, each directory before its contents, matching
the recursive walk order of pathlib rglob. -/
def descNames : List FS → List String
  | [] => []
  | FS.file n :: rest => n :: descNames rest
  | FS.dir n cs :: rest => n :: (descNames cs ++ descNames rest)

/-- fnmatch of the pattern "*.xml" on POSIX: case-sensitive, holds exactly
for names ending in ".xml". -/
def endsWithXml (m : String) : Bool :=
  ['.', 'x', 'm', 'l'].isSuffixOf m.toList

/-- Model of Path.rglob("*.xml") on a POSIX host: every descendant entry
(file or directory) whose name matches the pattern; fnmatch of "*.xml" is
case-sensitive on POSIX and holds exactly for names ending in ".xml". -/
def rglobXml (cs : List FS) : List String :=
  (descNames cs).filter (fun m => endsWithXml m)

/-- Model of pathlib Path.suffix: the extension of the final component from its
last dot, and the empty string when the name has no dot, starts with its
only dot, or ends in a dot. -/
def pySuffix (name : String) : String :=
  let cs := name.toList
  let n := cs.length
  match ((List.range n).filter (fun i => cs.getD i ' ' = '.')).getLast? with
  | some i => if 0 < i ∧ i < n - 1 then String.mk (cs.drop i) else ""
  | none => ""

/-- Embedding of iter_xml_files (MUSE_ECG_Extractor_KW_metadata_v2.py
lines 130-141): a file path is yielded when its suffix lowercased is
".xml"; a directory path yields its recursive rglob("*.xml") matches. -/
def iter_xml_files : List FS → List String
  | [] => []
  | FS.file n :: rest =>
      (if pyLower (pySuffix n) = ".xml" then [n] else []) ++ iter_xml_files rest
  | FS.dir _ cs :: rest => rglobXml cs ++ iter_xml_files rest

/-- Example document: one rhythm section recording lead I with bytes
[1, 0, 255, 255] at scale 2 and lead II with bytes [3, 0, 5, 0] at
scale 1. -/
def exRhythmDoc : Document :=
  ⟨[⟨some "rhythm",
    [⟨some "I", some (Blob.valid [1, 0, 255, 255]), some 2⟩,
     ⟨some "II", some (Blob.valid [3, 0, 5, 0]), some 1⟩]⟩]⟩

/-- The LeadSet assembled from exRhythmDoc: I = [2, -2], II = [3, 5] and
the four derived leads, all other leads empty. -/
def exRhythmLS : Leads :=
  [("I", Cell.series [2, -2]), ("II", Cell.series [3, 5]),
   ("III", Cell.series [1, 7]), ("aVR", Cell.series [-5/2, -3/2]),
   ("aVL", Cell.series [1/2, -9/2]), ("aVF", Cell.series [2, 6]),
   ("V1", Cell.series []), ("V2", Cell.series []), ("V3", Cell.series []),
   ("V4", Cell.series []), ("V5", Cell.series []), ("V6", Cell.series [])]

/-- Example document whose only section is a median section. -/
def exMedianDoc : Document :=
  ⟨[⟨some "median", [⟨some "I", some (Blob.valid [1, 0]), some 1⟩]⟩]⟩

/-- Example document with a Waveform section lacking its WaveformType. -/
def exNoTypeDoc : Document := ⟨[⟨none, []⟩]⟩

/-- Example document whose single rhythm section holds one V3 lead with an
invalid base64 blob. -/
def exBadV3Doc : Document :=
  ⟨[⟨some "rhythm",
    [⟨some "V3", some (Blob.invalid "Invalid base64-encoded string"), none⟩]⟩]⟩

/-- The LeadSet assembled from exBadV3Doc: V3 holds the sentinel error
string, every other lead is empty. -/
def exBadV3LS : Leads :=
  [("I", Cell.series []), ("II", Cell.series []), ("III", Cell.series []),
   ("aVR", Cell.series []), ("aVL", Cell.series []), ("aVF", Cell.series []),
   ("V1", Cell.series []), ("V2", Cell.series []),
   ("V3", Cell.errstr "[Error decoding waveform: Invalid base64-encoded string]"),
   ("V4", Cell.series []), ("V5", Cell.series []), ("V6", Cell.series [])]

/-- Example document in which lead I decodes to one sample and lead II to
two samples. -/
def exMismatchDoc : Document :=
  ⟨[⟨some "rhythm",
    [⟨some "I", some (Blob.valid [1, 0]), some 1⟩,
     ⟨some "II", some (Blob.valid [1, 0, 2, 0]), some 1⟩]⟩]⟩

/-- The section-loop result for exMismatchDoc: I = [1], II = [1, 2]. -/
def exMismatchLeads : Leads :=
  [("I", Cell.series [1]), ("II", Cell.series [1, 2]), ("III", Cell.series []),
   ("aVR", Cell.series []), ("aVL", Cell.series []), ("aVF", Cell.series []),
   ("V1", Cell.series []), ("V2", Cell.series []), ("V3", Cell.series []),
   ("V4", Cell.series []), ("V5", Cell.series []), ("V6", Cell.series [])]

/-- The LeadSet returned for exMismatchDoc: the length-one lead I
broadcasts across the length-two lead II in all four derivations. -/
def exMismatchLS : Leads :=
  [("I", Cell.series [1]), ("II", Cell.series [1, 2]),
   ("III", Cell.series [0, 1]), ("aVR", Cell.series [-1, -3/2]),
   ("aVL", Cell.series [1/2, 0]), ("aVF", Cell.series [1/2, 3/2]),
   ("V1", Cell.series []), ("V2", Cell.series []), ("V3", Cell.series []),
   ("V4", Cell.series []), ("V5", Cell.series []), ("V6", Cell.series [])]

/-- Truncating a byte list to its longest even prefix does not change the
unpacked 16-bit samples: the dangling byte was never consumed anyway. -/
theorem unpackInt16LE_take : ∀ l : List Nat,
    unpackInt16LE (l.take (l.length / 2 * 2)) = unpackInt16LE l
  | [] => rfl
  | [a] => by simp [unpackInt16LE]
  | a :: b :: r => by
      have h : (a :: b :: r).length / 2 * 2 = r.length / 2 * 2 + 2 := by
        simp only [List.length_cons]
        omega
      rw [h]
      simp only [List.take_succ_cons, unpackInt16LE]
      exact congrArg _ (unpackInt16LE_take r)

/-- The number of unpacked samples is the byte count divided by two. -/
theorem unpackInt16LE_length : ∀ l : List Nat,
    (unpackInt16LE l).length = l.length / 2
  | [] => rfl
  | [a] => by simp [unpackInt16LE]
  | _ :: _ :: r => by
      simp only [unpackInt16LE, List.length_cons, unpackInt16LE_length r]
      omega

/-- Sample k of the unpacked list is the signed 16-bit little-endian
integer formed from bytes 2k and 2k+1. -/
theorem unpackInt16LE_getD : ∀ (l : List Nat) (k : Nat), 2 * k + 1 < l.length →
    (unpackInt16LE l).getD k 0 = toInt16 (l.getD (2 * k) 0) (l.getD (2 * k + 1) 0)
  | [], k, h => by simp at h
  | [_], k, h => by
      simp only [List.length_cons, List.length_nil] at h
      omega
  | a :: b :: r, 0, _ => rfl
  | a :: b :: r, k + 1, h => by
      have hk : 2 * k + 1 < r.length := by
        simp only [List.length_cons] at h
        omega
      have h1 : 2 * (k + 1) = 2 * k + 1 + 1 := by omega
      have h2 : 2 * (k + 1) + 1 = 2 * k + 1 + 1 + 1 := by omega
      simp only [unpackInt16LE, h1, h2, List.getD_cons_succ]
      exact unpackInt16LE_getD r k hk

/-- Mapping the scaling over the samples preserves each position. -/
theorem map_scale_getD (scale : ℚ) : ∀ (l : List Int) (k : Nat), k < l.length →
    (l.map (fun s : Int => (s : ℚ) * scale)).getD k 0 = ((l.getD k 0 : Int) : ℚ) * scale
  | [], k, h => by simp at h
  | _ :: _, 0, _ => rfl
  | _ :: t, k + 1, h => by
      simp only [List.map_cons, List.getD_cons_succ]
      exact map_scale_getD scale t k (by simp only [List.length_cons] at h; omega)

/-- C1: for every blob that is valid base64 decoding to L raw bytes and
every scale, decode_waveform succeeds with exactly L / 2 samples, sample k
being the signed 16-bit little-endian integer formed from bytes 2k and
2k+1 multiplied by the scale; a trailing odd byte is ignored and the empty
blob yields the empty series. -/
theorem decode_waveform_valid_spec (bytes : List Nat) (scale : ℚ) :
    decode_waveform (Blob.valid bytes) scale
      = Except.ok ((unpackInt16LE bytes).map (fun s : Int => (s : ℚ) * scale)) ∧
    ((unpackInt16LE bytes).map (fun s : Int => (s : ℚ) * scale)).length = bytes.length / 2 ∧
    (∀ k, k < bytes.length / 2 →
      ((unpackInt16LE bytes).map (fun s : Int => (s : ℚ) * scale)).getD k 0
        = ((toInt16 (bytes.getD (2 * k) 0) (bytes.getD (2 * k + 1) 0) : Int) : ℚ) * scale) ∧
    decode_waveform (Blob.valid []) scale = Except.ok [] := by
  refine ⟨?_, ?_, ?_, rfl⟩
  · simp only [decode_waveform, b64decode, unpackInt16LE_take]
  · rw [List.length_map, unpackInt16LE_length]
  · intro k hk
    have hlen : k < (unpackInt16LE bytes).length := by
      rw [unpackInt16LE_length]; exact hk
    have hbound : 2 * k + 1 < bytes.length := by omega
    rw [map_scale_getD scale _ k hlen, unpackInt16LE_getD bytes k hbound]

/-- Witness for C1 at the three-byte payload [1, 0, 255] with scale 2: the
trailing byte 255 is dropped and the single sample is 1 * 2. -/
theorem decode_waveform_valid_spec_witness :
    decode_waveform (Blob.valid [1, 0, 255]) 2
      = Except.ok ((unpackInt16LE [1, 0, 255]).map (fun s : Int => (s : ℚ) * 2)) ∧
    (0 : Nat) < ([1, 0, 255] : List Nat).length / 2 ∧
    ((unpackInt16LE [1, 0, 255]).map (fun s : Int => (s : ℚ) * 2)).getD 0 0
      = ((toInt16 (([1, 0, 255] : List Nat).getD (2 * 0) 0)
          (([1, 0, 255] : List Nat).getD (2 * 0 + 1) 0) : Int) : ℚ) * 2 :=
  ⟨(decode_waveform_valid_spec [1, 0, 255] 2).1, by decide,
    (decode_waveform_valid_spec [1, 0, 255] 2).2.2.1 0 (by decide)⟩

/-- Binding an ok value just applies the continuation. -/
theorem except_bind_ok {α β : Type} (a : α) (f : α → Except String β) :
    (Except.ok a >>= f) = f a := rfl

/-- Binding an error propagates the error. -/
theorem except_bind_err {α β : Type} (e : String) (f : α → Except String β) :
    ((Except.error e : Except String α) >>= f) = Except.error e := rfl

/-- A computation is ok exactly when it returned a value. -/
theorem isOkE_iff {α : Type} (x : Except String α) :
    isOkE x = true ↔ ∃ v, x = Except.ok v := by
  cases x with
  | ok v => simp [isOkE]
  | error e => simp [isOkE]

/-- Reading back the key just written returns the new value. -/
theorem lookupLead_update_self (L : Leads) (k : String) (c : Cell) :
    lookupLead (updateLead L k c) k = some c := by
  induction L with
  | nil => simp [updateLead, lookupLead]
  | cons p rest ih =>
      obtain ⟨k1, c1⟩ := p
      by_cases h : k1 = k
      · subst h
        simp [updateLead, lookupLead]
      · simp [updateLead, lookupLead, h, ih]

/-- Writing one key leaves every other key unchanged. -/
theorem lookupLead_update_ne (L : Leads) (k k2 : String) (c : Cell) (h : k2 ≠ k) :
    lookupLead (updateLead L k c) k2 = lookupLead L k2 := by
  induction L with
  | nil => simp [updateLead, lookupLead, Ne.symm h]
  | cons p rest ih =>
      obtain ⟨k1, c1⟩ := p
      by_cases hk : k1 = k
      · subst hk
        simp [updateLead, lookupLead, Ne.symm h]
      · simp only [updateLead, if_neg hk, lookupLead]
        by_cases h2 : k1 = k2
        · simp [h2]
        · simp [h2, ih]

/-- Writing an existing key preserves the key list. -/
theorem keys_update_of_mem (L : Leads) (k : String) (c : Cell)
    (h : k ∈ L.map Prod.fst) :
    (updateLead L k c).map Prod.fst = L.map Prod.fst := by
  induction L with
  | nil => simp at h
  | cons p rest ih =>
      obtain ⟨k1, c1⟩ := p
      by_cases hk : k1 = k
      · subst hk
        simp [updateLead]
      · simp only [List.map_cons, List.mem_cons] at h
        rcases h with h | h
        · exact absurd h.symm hk
        · simp [updateLead, hk, ih h]

/-- Processing one LeadData node never changes the key list: a known id
overwrites in place and an unknown id is dropped. -/
theorem processLeadData_keys (L : Leads) (ld : LeadData) :
    (processLeadData L ld).map Prod.fst = L.map Prod.fst := by
  unfold processLeadData
  by_cases hmem : resolveLeadID ld.leadID ∈ L.map Prod.fst
  · simp only [if_pos hmem]
    split
    · exact keys_update_of_mem _ _ _ hmem
    · exact keys_update_of_mem _ _ _ hmem
  · simp only [if_neg hmem]

/-- The per-section lead loop preserves the key list. -/
theorem foldl_processLeadData_keys :
    ∀ (lds : List LeadData) (L : Leads),
      ((lds.foldl processLeadData L).map Prod.fst) = L.map Prod.fst
  | [], L => rfl
  | ld :: lds, L => by
      rw [List.foldl_cons, foldl_processLeadData_keys lds, processLeadData_keys]

/-- A section that returns normally preserves the key list. -/
theorem processWaveform_ok_keys (L : Leads) (wf : Waveform) (L2 : Leads)
    (h : processWaveform L wf = Except.ok L2) :
    L2.map Prod.fst = L.map Prod.fst := by
  unfold processWaveform at h
  cases hwt : wf.waveformType with
  | none => rw [hwt] at h; cases h
  | some t =>
      rw [hwt] at h
      dsimp only at h
      by_cases hr : pyLower t ≠ "rhythm"
      · rw [if_pos hr] at h
        injection h with h2
        subst h2
        rfl
      · rw [if_neg hr] at h
        injection h with h2
        subst h2
        exact foldl_processLeadData_keys _ _

/-- The section loop preserves the key list when it returns normally. -/
theorem foldlM_processWaveform_keys :
    ∀ (wfs : List Waveform) (L0 L : Leads),
      List.foldlM processWaveform L0 wfs = Except.ok L → L.map Prod.fst = L0.map Prod.fst
  | [], L0, L, h => by
      simp only [List.foldlM_nil] at h
      injection h with h2
      subst h2
      rfl
  | wf :: wfs, L0, L, h => by
      simp only [List.foldlM_cons] at h
      cases hw : processWaveform L0 wf with
      | error e =>
          rw [hw, except_bind_err] at h
          cases h
      | ok L1 =>
          rw [hw, except_bind_ok] at h
          rw [foldlM_processWaveform_keys wfs L1 L h, processWaveform_ok_keys L0 wf L1 hw]

/-- After a normal section loop the key list is still exactly the twelve
enumerated leads. -/
theorem processDoc_ok_keys (doc : Document) (L : Leads)
    (h : processDoc doc = Except.ok L) :
    L.map Prod.fst = leadNames := by
  rw [foldlM_processWaveform_keys doc.waveforms initLeads L h]
  rfl

/-- Equal-length operands combine strictly pointwise. -/
theorem broadcastOp_zip (f : ℚ → ℚ → ℚ) (a b : List ℚ) (h : a.length = b.length) :
    broadcastOp f a b = Except.ok (List.zipWith f a b) := by
  simp [broadcastOp, h]

/-- An elementwise combination succeeds exactly when the lengths are
equal or one operand has length one (numpy broadcasting). -/
theorem broadcastOp_ok_iff (f : ℚ → ℚ → ℚ) (a b : List ℚ) :
    (∃ r, broadcastOp f a b = Except.ok r) ↔
      (a.length = b.length ∨ a.length = 1 ∨ b.length = 1) := by
  unfold broadcastOp
  split_ifs with h1 h2 h3
  · exact iff_of_true ⟨_, rfl⟩ (Or.inl h1)
  · exact iff_of_true ⟨_, rfl⟩ (Or.inr (Or.inl h2))
  · exact iff_of_true ⟨_, rfl⟩ (Or.inr (Or.inr h3))
  · refine iff_of_false ?_ ?_
    · rintro ⟨r, hr⟩
      cases hr
    · rintro (h | h | h)
      · exact h1 h
      · exact h2 h
      · exact h3 h

/-- Forward computation of one derivation assignment when both operands
hold series and the broadcast succeeds. -/
theorem binop_ok_of (L : Leads) (k1 k2 : String) (f : ℚ → ℚ → ℚ) (dst : String)
    (x y r : List ℚ)
    (h1 : lookupLead L k1 = some (Cell.series x))
    (h2 : lookupLead L k2 = some (Cell.series y))
    (hbc : broadcastOp f x y = Except.ok r) :
    binop L k1 k2 f dst = Except.ok (updateLead L dst (Cell.series r)) := by
  simp only [binop, h1, h2, hbc]

/-- Forward computation of one derivation assignment when the broadcast
raises. -/
theorem binop_err_of (L : Leads) (k1 k2 : String) (f : ℚ → ℚ → ℚ) (dst : String)
    (x y : List ℚ) (e : String)
    (h1 : lookupLead L k1 = some (Cell.series x))
    (h2 : lookupLead L k2 = some (Cell.series y))
    (hbc : broadcastOp f x y = Except.error e) :
    binop L k1 k2 f dst = Except.error e := by
  simp only [binop, h1, h2, hbc]

/-- A derivation assignment that returned normally read two series cells
whose broadcast succeeded, and wrote the result in place. -/
theorem binop_ok_elim (L : Leads) (k1 k2 : String) (f : ℚ → ℚ → ℚ) (dst : String)
    (L2 : Leads) (h : binop L k1 k2 f dst = Except.ok L2) :
    ∃ x y r, lookupLead L k1 = some (Cell.series x) ∧
      lookupLead L k2 = some (Cell.series y) ∧
      broadcastOp f x y = Except.ok r ∧
      L2 = updateLead L dst (Cell.series r) := by
  unfold binop at h
  cases hx : lookupLead L k1 with
  | none =>
      cases hy : lookupLead L k2 with
      | none => rw [hx, hy] at h; dsimp only at h; cases h
      | some cy =>
          rw [hx, hy] at h
          cases cy <;> (dsimp only at h; cases h)
  | some cx =>
      cases hy : lookupLead L k2 with
      | none =>
          rw [hx, hy] at h
          cases cx <;> (dsimp only at h; cases h)
      | some cy =>
          rw [hx, hy] at h
          cases cx with
          | errstr e => cases cy <;> (dsimp only at h; cases h)
          | series x =>
              cases cy with
              | errstr e =>
                  dsimp only at h
                  cases h
              | series y =>
                  dsimp only at h
                  cases hbc : broadcastOp f x y with
                  | error e => rw [hbc] at h; cases h
                  | ok r =>
                      rw [hbc] at h
                      injection h with h2
                      exact ⟨x, y, r, rfl, rfl, hbc, h2.symm⟩

/-- Two equal optional series cells hold equal lists. -/
theorem some_series_inj {a b : List ℚ}
    (h : (some (Cell.series a) : Option Cell) = some (Cell.series b)) : a = b :=
  Cell.series.inj (Option.some.inj h)

/-- A derivation phase that returned normally read series from I and II,
all four broadcasts succeeded, and the result is the input dictionary with
exactly the four derived keys overwritten. -/
theorem derive_ok_elim (L0 LS : Leads) (h : derive L0 = Except.ok LS) :
    ∃ a b r1 r2 r3 r4,
      lookupLead L0 "I" = some (Cell.series a) ∧
      lookupLead L0 "II" = some (Cell.series b) ∧
      broadcastOp (fun x y => x - y) b a = Except.ok r1 ∧
      broadcastOp (fun x y => -(x + y) / 2) a b = Except.ok r2 ∧
      broadcastOp (fun x y => x - y / 2) a b = Except.ok r3 ∧
      broadcastOp (fun x y => x - y / 2) b a = Except.ok r4 ∧
      LS = updateLead (updateLead (updateLead (updateLead L0 "III" (Cell.series r1))
        "aVR" (Cell.series r2)) "aVL" (Cell.series r3)) "aVF" (Cell.series r4) := by
  unfold derive at h
  cases hb1 : binop L0 "II" "I" (fun x y => x - y) "III" with
  | error e => rw [hb1] at h; cases h
  | ok L1 =>
      rw [hb1] at h
      dsimp only at h
      cases hb2 : binop L1 "I" "II" (fun x y => -(x + y) / 2) "aVR" with
      | error e => rw [hb2] at h; cases h
      | ok L2 =>
          rw [hb2] at h
          dsimp only at h
          cases hb3 : binop L2 "I" "II" (fun x y => x - y / 2) "aVL" with
          | error e => rw [hb3] at h; cases h
          | ok L3 =>
              rw [hb3] at h
              dsimp only at h
              obtain ⟨b0, a0, r1, hII0, hI0, hbc1, hL1⟩ := binop_ok_elim _ _ _ _ _ _ hb1
              obtain ⟨a1, b1, r2, hI1, hII1, hbc2, hL2⟩ := binop_ok_elim _ _ _ _ _ _ hb2
              obtain ⟨a2, b2, r3, hI2, hII2, hbc3, hL3⟩ := binop_ok_elim _ _ _ _ _ _ hb3
              obtain ⟨b3, a3, r4, hII3, hI3, hbc4, hLS⟩ := binop_ok_elim _ _ _ _ _ _ h
              subst hL1
              subst hL2
              subst hL3
              subst hLS
              rw [lookupLead_update_ne _ _ _ _ (by decide), hI0] at hI1
              rw [lookupLead_update_ne _ _ _ _ (by decide), hII0] at hII1
              rw [lookupLead_update_ne _ _ _ _ (by decide),
                lookupLead_update_ne _ _ _ _ (by decide), hI0] at hI2
              rw [lookupLead_update_ne _ _ _ _ (by decide),
                lookupLead_update_ne _ _ _ _ (by decide), hII0] at hII2
              rw [lookupLead_update_ne _ _ _ _ (by decide),
                lookupLead_update_ne _ _ _ _ (by decide),
                lookupLead_update_ne _ _ _ _ (by decide), hI0] at hI3
              rw [lookupLead_update_ne _ _ _ _ (by decide),
                lookupLead_update_ne _ _ _ _ (by decide),
                lookupLead_update_ne _ _ _ _ (by decide), hII0] at hII3
              have ea1 : a1 = a0 := (some_series_inj hI1).symm
              have eb1 : b1 = b0 := (some_series_inj hII1).symm
              have ea2 : a2 = a0 := (some_series_inj hI2).symm
              have eb2 : b2 = b0 := (some_series_inj hII2).symm
              have ea3 : a3 = a0 := (some_series_inj hI3).symm
              have eb3 : b3 = b0 := (some_series_inj hII3).symm
              rw [ea1, eb1] at hbc2
              rw [ea2, eb2] at hbc3
              rw [ea3, eb3] at hbc4
              exact ⟨a0, b0, r1, r2, r3, r4, hI0, hII0, hbc1, hbc2, hbc3, hbc4, rfl⟩

/-- Forward computation of the derivation phase when I and II hold series
and all four broadcasts succeed. -/
theorem derive_ok_of (L : Leads) (a b r1 r2 r3 r4 : List ℚ)
    (hI : lookupLead L "I" = some (Cell.series a))
    (hII : lookupLead L "II" = some (Cell.series b))
    (h1 : broadcastOp (fun x y => x - y) b a = Except.ok r1)
    (h2 : broadcastOp (fun x y => -(x + y) / 2) a b = Except.ok r2)
    (h3 : broadcastOp (fun x y => x - y / 2) a b = Except.ok r3)
    (h4 : broadcastOp (fun x y => x - y / 2) b a = Except.ok r4) :
    derive L = Except.ok (updateLead (updateLead (updateLead (updateLead L "III"
      (Cell.series r1)) "aVR" (Cell.series r2)) "aVL" (Cell.series r3)) "aVF"
      (Cell.series r4)) := by
  have hI1 : lookupLead (updateLead L "III" (Cell.series r1)) "I"
      = some (Cell.series a) := by
    rw [lookupLead_update_ne _ _ _ _ (by decide), hI]
  have hII1 : lookupLead (updateLead L "III" (Cell.series r1)) "II"
      = some (Cell.series b) := by
    rw [lookupLead_update_ne _ _ _ _ (by decide), hII]
  have hI2 : lookupLead (updateLead (updateLead L "III" (Cell.series r1)) "aVR"
      (Cell.series r2)) "I" = some (Cell.series a) := by
    rw [lookupLead_update_ne _ _ _ _ (by decide), hI1]
  have hII2 : lookupLead (updateLead (updateLead L "III" (Cell.series r1)) "aVR"
      (Cell.series r2)) "II" = some (Cell.series b) := by
    rw [lookupLead_update_ne _ _ _ _ (by decide), hII1]
  have hI3 : lookupLead (updateLead (updateLead (updateLead L "III" (Cell.series r1))
      "aVR" (Cell.series r2)) "aVL" (Cell.series r3)) "I" = some (Cell.series a) := by
    rw [lookupLead_update_ne _ _ _ _ (by decide), hI2]
  have hII3 : lookupLead (updateLead (updateLead (updateLead L "III" (Cell.series r1))
      "aVR" (Cell.series r2)) "aVL" (Cell.series r3)) "II" = some (Cell.series b) := by
    rw [lookupLead_update_ne _ _ _ _ (by decide), hII2]
  have b1 := binop_ok_of L "II" "I" (fun x y => x - y) "III" b a r1 hII hI h1
  have b2 := binop_ok_of _ "I" "II" (fun x y => -(x + y) / 2) "aVR" a b r2 hI1 hII1 h2
  have b3 := binop_ok_of _ "I" "II" (fun x y => x - y / 2) "aVL" a b r3 hI2 hII2 h3
  have b4 := binop_ok_of _ "II" "I" (fun x y => x - y / 2) "aVF" b a r4 hII3 hI3 h4
  simp only [derive, b1, b2, b3, b4]

/-- The derivation phase returns normally exactly when the lengths of I
and II are equal or one of them is one (numpy broadcasting). -/
theorem derive_isOk_iff (L : Leads) (a b : List ℚ)
    (hI : lookupLead L "I" = some (Cell.series a))
    (hII : lookupLead L "II" = some (Cell.series b)) :
    isOkE (derive L) = true ↔ (a.length = b.length ∨ a.length = 1 ∨ b.length = 1) := by
  constructor
  · intro h
    obtain ⟨LS, hLS⟩ := (isOkE_iff _).mp h
    obtain ⟨a0, b0, r1, r2, r3, r4, hI0, hII0, hbc1, _, _, _, _⟩ := derive_ok_elim _ _ hLS
    have ea : a0 = a := some_series_inj (hI0.symm.trans hI)
    have eb : b0 = b := some_series_inj (hII0.symm.trans hII)
    rw [ea, eb] at hbc1
    rcases (broadcastOp_ok_iff _ b a).mp ⟨r1, hbc1⟩ with h | h | h
    · exact Or.inl h.symm
    · exact Or.inr (Or.inr h)
    · exact Or.inr (Or.inl h)
  · intro hc
    have hsym : b.length = a.length ∨ b.length = 1 ∨ a.length = 1 := by
      rcases hc with h | h | h
      · exact Or.inl h.symm
      · exact Or.inr (Or.inr h)
      · exact Or.inr (Or.inl h)
    obtain ⟨r1, h1⟩ := (broadcastOp_ok_iff (fun x y => x - y) b a).mpr hsym
    obtain ⟨r2, h2⟩ := (broadcastOp_ok_iff (fun x y => -(x + y) / 2) a b).mpr hc
    obtain ⟨r3, h3⟩ := (broadcastOp_ok_iff (fun x y => x - y / 2) a b).mpr hc
    obtain ⟨r4, h4⟩ := (broadcastOp_ok_iff (fun x y => x - y / 2) b a).mpr hsym
    rw [derive_ok_of L a b r1 r2 r3 r4 hI hII h1 h2 h3 h4]
    rfl

/-- The derivation phase never touches the recorded leads I and II. -/
theorem derive_lookup_eq (L0 LS : Leads) (h : derive L0 = Except.ok LS) :
    lookupLead LS "I" = lookupLead L0 "I" ∧
    lookupLead LS "II" = lookupLead L0 "II" := by
  obtain ⟨a, b, r1, r2, r3, r4, _, _, _, _, _, _, hLS⟩ := derive_ok_elim _ _ h
  subst hLS
  constructor
  · rw [lookupLead_update_ne _ _ _ _ (by decide), lookupLead_update_ne _ _ _ _ (by decide),
      lookupLead_update_ne _ _ _ _ (by decide), lookupLead_update_ne _ _ _ _ (by decide)]
  · rw [lookupLead_update_ne _ _ _ _ (by decide), lookupLead_update_ne _ _ _ _ (by decide),
      lookupLead_update_ne _ _ _ _ (by decide), lookupLead_update_ne _ _ _ _ (by decide)]

/-- Pointwise reading of an equal-length zipWith. -/
theorem zipWith_getD (f : ℚ → ℚ → ℚ) :
    ∀ (a b : List ℚ) (k : Nat), k < a.length → k < b.length →
      (List.zipWith f a b).getD k 0 = f (a.getD k 0) (b.getD k 0)
  | [], _, k, h, _ => by simp at h
  | _ :: _, [], k, _, h => by simp at h
  | x :: xs, y :: ys, 0, _, _ => rfl
  | x :: xs, y :: ys, k + 1, h1, h2 => by
      simp only [List.zipWith_cons_cons, List.getD_cons_succ]
      exact zipWith_getD f xs ys k
        (by simp only [List.length_cons] at h1; omega)
        (by simp only [List.length_cons] at h2; omega)

/-- C4: for every blob whose base64 decoding fails and every scale,
decode_waveform returns the sentinel failure marker carrying the original
exception message rather than raising, and in general every call produces
either a complete successful series or the failure marker, never a
partially populated series. -/
theorem decode_error_marker (msg : String) (scale : ℚ) (blob : Blob) :
    decode_waveform (Blob.invalid msg) scale
      = Except.error ("[Error decoding waveform: " ++ msg ++ "]") ∧
    ((∃ s, decode_waveform blob scale = Except.ok s) ∨
      (∃ e, decode_waveform blob scale = Except.error e)) := by
  refine ⟨rfl, ?_⟩
  cases blob with
  | valid bs => exact Or.inl ⟨_, rfl⟩
  | invalid m => exact Or.inr ⟨_, rfl⟩

/-- C2: in every LeadSet the Assembler returns in which leads I and II hold
series of equal length m, the derived leads satisfy, at every index k < m,
III k = II k - I k, aVR k = -(I k + II k) / 2, aVL k = I k - II k / 2 and
aVF k = II k - I k / 2, exactly. -/
theorem derived_lead_identities (doc : Document) (LS : Leads) (a b : List ℚ)
    (h : get_lead_data doc = Except.ok LS)
    (hI : lookupLead LS "I" = some (Cell.series a))
    (hII : lookupLead LS "II" = some (Cell.series b))
    (hlen : a.length = b.length) :
    lookupLead LS "III" = some (Cell.series (List.zipWith (fun x y => x - y) b a)) ∧
    lookupLead LS "aVR"
      = some (Cell.series (List.zipWith (fun x y => -(x + y) / 2) a b)) ∧
    lookupLead LS "aVL" = some (Cell.series (List.zipWith (fun x y => x - y / 2) a b)) ∧
    lookupLead LS "aVF" = some (Cell.series (List.zipWith (fun x y => x - y / 2) b a)) ∧
    (∀ k, k < a.length →
      (List.zipWith (fun x y => x - y) b a).getD k 0 = b.getD k 0 - a.getD k 0 ∧
      (List.zipWith (fun x y => -(x + y) / 2) a b).getD k 0
        = -(a.getD k 0 + b.getD k 0) / 2 ∧
      (List.zipWith (fun x y => x - y / 2) a b).getD k 0
        = a.getD k 0 - b.getD k 0 / 2 ∧
      (List.zipWith (fun x y => x - y / 2) b a).getD k 0
        = b.getD k 0 - a.getD k 0 / 2) := by
  unfold get_lead_data at h
  cases hp : processDoc doc with
  | error e => rw [hp] at h; cases h
  | ok L0 =>
      rw [hp] at h
      dsimp only at h
      obtain ⟨hIeq, hIIeq⟩ := derive_lookup_eq _ _ h
      have hI0 : lookupLead L0 "I" = some (Cell.series a) := by rw [← hIeq]; exact hI
      have hII0 : lookupLead L0 "II" = some (Cell.series b) := by rw [← hIIeq]; exact hII
      obtain ⟨a0, b0, r1, r2, r3, r4, hI0e, hII0e, hbc1, hbc2, hbc3, hbc4, hLS⟩ :=
        derive_ok_elim _ _ h
      have ea : a0 = a := some_series_inj (hI0e.symm.trans hI0)
      have eb : b0 = b := some_series_inj (hII0e.symm.trans hII0)
      rw [ea, eb] at hbc1 hbc2 hbc3 hbc4
      have er1 : r1 = List.zipWith (fun x y => x - y) b a := by
        rw [broadcastOp_zip _ _ _ hlen.symm] at hbc1
        exact (Except.ok.inj hbc1).symm
      have er2 : r2 = List.zipWith (fun x y => -(x + y) / 2) a b := by
        rw [broadcastOp_zip _ _ _ hlen] at hbc2
        exact (Except.ok.inj hbc2).symm
      have er3 : r3 = List.zipWith (fun x y => x - y / 2) a b := by
        rw [broadcastOp_zip _ _ _ hlen] at hbc3
        exact (Except.ok.inj hbc3).symm
      have er4 : r4 = List.zipWith (fun x y => x - y / 2) b a := by
        rw [broadcastOp_zip _ _ _ hlen.symm] at hbc4
        exact (Except.ok.inj hbc4).symm
      subst hLS
      refine ⟨?_, ?_, ?_, ?_, ?_⟩
      · rw [lookupLead_update_ne _ _ _ _ (by decide), lookupLead_update_ne _ _ _ _ (by decide),
          lookupLead_update_ne _ _ _ _ (by decide), lookupLead_update_self, er1]
      · rw [lookupLead_update_ne _ _ _ _ (by decide), lookupLead_update_ne _ _ _ _ (by decide),
          lookupLead_update_self, er2]
      · rw [lookupLead_update_ne _ _ _ _ (by decide), lookupLead_update_self, er3]
      · rw [lookupLead_update_self, er4]
      · intro k hk
        have hkb : k < b.length := by omega
        exact ⟨zipWith_getD _ b a k hkb hk, zipWith_getD _ a b k hk hkb,
          zipWith_getD _ a b k hk hkb, zipWith_getD _ b a k hkb hk⟩

-- Witness for C2 on a concrete two-sample document: I = [2, -2],
-- II = [3, 5], so III = [1, 7] and III at index 0 equals II at 0 minus
-- I at 0.
unseal Rat.add Rat.sub Rat.mul Rat.inv Nat.gcd in
theorem derived_lead_identities_witness :
    lookupLead exRhythmLS "III"
      = some (Cell.series (List.zipWith (fun x y => x - y) [(3 : ℚ), 5] [2, -2])) ∧
    (List.zipWith (fun x y => x - y) [(3 : ℚ), 5] [2, -2]).getD 0 0
      = ([(3 : ℚ), 5].getD 0 0) - ([(2 : ℚ), -2].getD 0 0) :=
  ⟨(derived_lead_identities exRhythmDoc exRhythmLS [2, -2] [3, 5]
      (by decide) (by decide) (by decide) (by decide)).1,
    ((derived_lead_identities exRhythmDoc exRhythmLS [2, -2] [3, 5]
      (by decide) (by decide) (by decide) (by decide)).2.2.2.2 0 (by decide)).1⟩

/-- C9: in every LeadSet the Assembler returns, the entries for III, aVR,
aVL and aVF are exactly the derivation expressions over the final I and II
entries; recorded data for the augmented leads can never survive, because
lead identifiers are uppercased before key matching while the map keys
aVR, aVL, aVF are mixed-case (a recorded aVR becomes AVR, matches no key,
and is dropped), and any recorded III is unconditionally overwritten by
the derivation step. -/
theorem derived_overwrite_invariant (doc : Document) (LS : Leads) (a b : List ℚ)
    (h : get_lead_data doc = Except.ok LS)
    (hI : lookupLead LS "I" = some (Cell.series a))
    (hII : lookupLead LS "II" = some (Cell.series b)) :
    ((broadcastOp (fun x y => x - y) b a).map (fun r => some (Cell.series r))
      = Except.ok (lookupLead LS "III")) ∧
    ((broadcastOp (fun x y => -(x + y) / 2) a b).map (fun r => some (Cell.series r))
      = Except.ok (lookupLead LS "aVR")) ∧
    ((broadcastOp (fun x y => x - y / 2) a b).map (fun r => some (Cell.series r))
      = Except.ok (lookupLead LS "aVL")) ∧
    ((broadcastOp (fun x y => x - y / 2) b a).map (fun r => some (Cell.series r))
      = Except.ok (lookupLead LS "aVF")) ∧
    resolveLeadID (some "aVR") = "AVR" ∧
    resolveLeadID (some "aVL") = "AVL" ∧
    resolveLeadID (some "aVF") = "AVF" ∧
    ¬ "AVR" ∈ leadNames ∧ ¬ "AVL" ∈ leadNames ∧ ¬ "AVF" ∈ leadNames ∧
    (∀ (L : Leads) (w : Option Blob) (u : Option ℚ), L.map Prod.fst = leadNames →
      processLeadData L ⟨some "aVR", w, u⟩ = L ∧
      processLeadData L ⟨some "aVL", w, u⟩ = L ∧
      processLeadData L ⟨some "aVF", w, u⟩ = L) := by
  unfold get_lead_data at h
  cases hp : processDoc doc with
  | error e => rw [hp] at h; cases h
  | ok L0 =>
      rw [hp] at h
      dsimp only at h
      obtain ⟨hIeq, hIIeq⟩ := derive_lookup_eq _ _ h
      have hI0 : lookupLead L0 "I" = some (Cell.series a) := by rw [← hIeq]; exact hI
      have hII0 : lookupLead L0 "II" = some (Cell.series b) := by rw [← hIIeq]; exact hII
      obtain ⟨a0, b0, r1, r2, r3, r4, hI0e, hII0e, hbc1, hbc2, hbc3, hbc4, hLS⟩ :=
        derive_ok_elim _ _ h
      have ea : a0 = a := some_series_inj (hI0e.symm.trans hI0)
      have eb : b0 = b := some_series_inj (hII0e.symm.trans hII0)
      rw [ea, eb] at hbc1 hbc2 hbc3 hbc4
      subst hLS
      refine ⟨?_, ?_, ?_, ?_, by decide, by decide, by decide, by decide, by decide,
        by decide, ?_⟩
      · rw [lookupLead_update_ne _ _ _ _ (by decide), lookupLead_update_ne _ _ _ _ (by decide),
          lookupLead_update_ne _ _ _ _ (by decide), lookupLead_update_self, hbc1]
        rfl
      · rw [lookupLead_update_ne _ _ _ _ (by decide), lookupLead_update_ne _ _ _ _ (by decide),
          lookupLead_update_self, hbc2]
        rfl
      · rw [lookupLead_update_ne _ _ _ _ (by decide), lookupLead_update_self, hbc3]
        rfl
      · rw [lookupLead_update_self, hbc4]
        rfl
      · intro L w u hkeys
        refine ⟨?_, ?_, ?_⟩
        · unfold processLeadData
          rw [show resolveLeadID (some "aVR") = "AVR" from by decide, hkeys]
          rw [if_neg (by decide)]
        · unfold processLeadData
          rw [show resolveLeadID (some "aVL") = "AVL" from by decide, hkeys]
          rw [if_neg (by decide)]
        · unfold processLeadData
          rw [show resolveLeadID (some "aVF") = "AVF" from by decide, hkeys]
          rw [if_neg (by decide)]

-- Witness for C9 on the concrete document exRhythmDoc: the III entry of
-- the returned LeadSet is exactly the broadcast of II - I.
unseal Rat.add Rat.sub Rat.mul Rat.inv Nat.gcd in
theorem derived_overwrite_invariant_witness :
    (broadcastOp (fun x y => x - y) [(3 : ℚ), 5] [2, -2]).map
        (fun r => some (Cell.series r))
      = Except.ok (lookupLead exRhythmLS "III") :=
  (derived_overwrite_invariant exRhythmDoc exRhythmLS [2, -2] [3, 5]
    (by decide) (by decide) (by decide)).1

/-- C5: whenever the Assembler returns, the returned LeadSet has exactly
the twelve enumerated lead keys in their seeded order, never an incomplete key
set; and the four derived leads are computed unconditionally from the
current I and II: when both remained empty after the section loop, the
derivation runs on empty series, does not raise, and yields the four
derived leads as empty series. -/
theorem leadset_fully_keyed (doc : Document) :
    (∀ LS, get_lead_data doc = Except.ok LS → LS.map Prod.fst = leadNames) ∧
    (∀ L, processDoc doc = Except.ok L →
      lookupLead L "I" = some (Cell.series []) →
      lookupLead L "II" = some (Cell.series []) →
      get_lead_data doc
        = Except.ok (updateLead (updateLead (updateLead (updateLead L "III"
            (Cell.series [])) "aVR" (Cell.series [])) "aVL" (Cell.series []))
            "aVF" (Cell.series []))) := by
  constructor
  · intro LS h
    unfold get_lead_data at h
    cases hp : processDoc doc with
    | error e => rw [hp] at h; cases h
    | ok L0 =>
        rw [hp] at h
        dsimp only at h
        have k0 := processDoc_ok_keys _ _ hp
        obtain ⟨a, b, r1, r2, r3, r4, _, _, _, _, _, _, hLS⟩ := derive_ok_elim _ _ h
        subst hLS
        have m1 : "III" ∈ L0.map Prod.fst := by rw [k0]; decide
        have e1 : (updateLead L0 "III" (Cell.series r1)).map Prod.fst = leadNames := by
          rw [keys_update_of_mem _ _ _ m1, k0]
        have m2 : "aVR" ∈ (updateLead L0 "III" (Cell.series r1)).map Prod.fst := by
          rw [e1]; decide
        have e2 : (updateLead (updateLead L0 "III" (Cell.series r1)) "aVR"
            (Cell.series r2)).map Prod.fst = leadNames := by
          rw [keys_update_of_mem _ _ _ m2, e1]
        have m3 : "aVL" ∈ (updateLead (updateLead L0 "III" (Cell.series r1)) "aVR"
            (Cell.series r2)).map Prod.fst := by
          rw [e2]; decide
        have e3 : (updateLead (updateLead (updateLead L0 "III" (Cell.series r1)) "aVR"
            (Cell.series r2)) "aVL" (Cell.series r3)).map Prod.fst = leadNames := by
          rw [keys_update_of_mem _ _ _ m3, e2]
        have m4 : "aVF" ∈ (updateLead (updateLead (updateLead L0 "III" (Cell.series r1))
            "aVR" (Cell.series r2)) "aVL" (Cell.series r3)).map Prod.fst := by
          rw [e3]; decide
        rw [keys_update_of_mem _ _ _ m4, e3]
  · intro L hp hIe hIIe
    have hz : broadcastOp (fun x y : ℚ => x - y) [] [] = Except.ok [] :=
      broadcastOp_zip _ [] [] rfl
    have hz2 : broadcastOp (fun x y : ℚ => -(x + y) / 2) [] [] = Except.ok [] :=
      broadcastOp_zip _ [] [] rfl
    have hz3 : broadcastOp (fun x y : ℚ => x - y / 2) [] [] = Except.ok [] :=
      broadcastOp_zip _ [] [] rfl
    have hd := derive_ok_of L [] [] [] [] [] [] hIe hIIe hz hz2 hz3 hz3
    unfold get_lead_data
    rw [hp]
    dsimp only
    exact hd

-- Witness for C5 on the empty document: twelve keys, and the derivation
-- on the empty I and II returns normally with empty derived leads.
theorem leadset_fully_keyed_witness :
    initLeads.map Prod.fst = leadNames ∧
    get_lead_data (Document.mk [])
      = Except.ok (updateLead (updateLead (updateLead (updateLead initLeads "III"
          (Cell.series [])) "aVR" (Cell.series [])) "aVL" (Cell.series []))
          "aVF" (Cell.series [])) :=
  ⟨(leadset_fully_keyed (Document.mk [])).1 initLeads (by decide),
    (leadset_fully_keyed (Document.mk [])).2 initLeads (by decide)
      (by decide) (by decide)⟩

/-- Sections whose type is present but not rhythm leave the loop state
unchanged and the whole loop returns its initial state. -/
theorem foldlM_skip_all :
    ∀ (wfs : List Waveform),
      (∀ w ∈ wfs, ∃ t, w.waveformType = some t ∧ pyLower t ≠ "rhythm") →
      ∀ L : Leads, List.foldlM processWaveform L wfs = Except.ok L
  | [], _, L => by simp only [List.foldlM_nil]; rfl
  | wf :: wfs, h, L => by
      obtain ⟨t, ht, hn⟩ := h wf (List.mem_cons_self wf wfs)
      have hw : processWaveform L wf = Except.ok L := by
        unfold processWaveform
        rw [ht]
        dsimp only
        rw [if_pos hn]
      simp only [List.foldlM_cons, hw, except_bind_ok]
      exact foldlM_skip_all wfs (fun w hwm => h w (List.mem_cons_of_mem wf hwm)) L

/-- C6: the Assembler processes only Waveform sections whose waveform-type
equals rhythm compared case-insensitively (via lowering), skipping every
other section entirely; consequently a document whose sections all carry a
non-rhythm type such as median yields the LeadSet in which every lead,
including the four derived leads, is the empty series. -/
theorem rhythm_filter (doc : Document)
    (h : ∀ w ∈ doc.waveforms, ∃ t, w.waveformType = some t ∧ pyLower t ≠ "rhythm") :
    get_lead_data doc = Except.ok initLeads ∧
    (∀ (L : Leads) (wf : Waveform) (t : String),
      wf.waveformType = some t → pyLower t ≠ "rhythm" →
      processWaveform L wf = Except.ok L) := by
  constructor
  · have hp : processDoc doc = Except.ok initLeads := foldlM_skip_all doc.waveforms h _
    unfold get_lead_data
    rw [hp]
    dsimp only
    decide
  · intro L wf t ht hn
    unfold processWaveform
    rw [ht]
    dsimp only
    rw [if_pos hn]

-- Witness for C6: a document whose only section is of type median is
-- skipped entirely and every lead of the result, derived ones included,
-- is empty.
theorem rhythm_filter_witness :
    get_lead_data exMedianDoc = Except.ok initLeads ∧
    processWaveform initLeads ⟨some "median", []⟩ = Except.ok initLeads :=
  ⟨(rhythm_filter exMedianDoc (by
      intro w hw
      simp only [exMedianDoc, List.mem_singleton] at hw
      subst hw
      exact ⟨"median", rfl, by decide⟩)).1,
   (rhythm_filter exMedianDoc (by
      intro w hw
      simp only [exMedianDoc, List.mem_singleton] at hw
      subst hw
      exact ⟨"median", rfl, by decide⟩)).2 initLeads ⟨some "median", []⟩ "median"
      rfl (by decide)⟩

/-- C7 counterexample: the claim says a missing waveform-type is resolved
via a documented default and never raises, but on the document whose only
Waveform section lacks its WaveformType element the Assembler raises an
AttributeError instead of returning. -/
theorem missing_waveform_type_raises_counterexample :
    get_lead_data exNoTypeDoc
      = Except.error "AttributeError: NoneType object has no attribute lower" := by
  decide

/-- The section loop raises whenever some section lacks its
waveform-type. -/
theorem foldlM_missing_type_err :
    ∀ (wfs : List Waveform) (L0 : Leads),
      (∃ wf ∈ wfs, wf.waveformType = none) →
      isOkE (List.foldlM processWaveform L0 wfs) = false
  | [], _, hex => by
      obtain ⟨wf, hmem, _⟩ := hex
      cases hmem
  | w :: ws, L0, hex => by
      obtain ⟨wf, hmem, hnone⟩ := hex
      simp only [List.foldlM_cons]
      rcases List.mem_cons.mp hmem with heq | hmem2
      · subst heq
        have hw : processWaveform L0 wf
            = Except.error "AttributeError: NoneType object has no attribute lower" := by
          unfold processWaveform
          rw [hnone]
        rw [hw, except_bind_err]
        rfl
      · cases hw : processWaveform L0 w with
        | error e => rw [except_bind_err]; rfl
        | ok L1 =>
            rw [except_bind_ok]
            exact foldlM_missing_type_err ws L1 ⟨wf, hmem2, hnone⟩

/-- C7 amended: absence of a lead identifier, of the blob text or of the
units-per-bit field is resolved via the documented defaults (sentinel
"[Unknown LeadID]", empty blob, scale 1) and never raises; but a Waveform
section whose waveform-type is absent raises an AttributeError and the
document fails instead of returning a LeadSet. -/
theorem missing_field_defaults_amended :
    resolveLeadID none = "[Unknown LeadID]" ∧
    resolveBlob none = emptyBlob ∧
    resolveScale none = 1 ∧
    (∀ (L : Leads) (w : Option Blob) (u : Option ℚ),
      ¬ "[Unknown LeadID]" ∈ L.map Prod.fst →
      processLeadData L ⟨none, w, u⟩ = L) ∧
    (∀ L : Leads, "I" ∈ L.map Prod.fst →
      processLeadData L ⟨some "I", none, none⟩ = updateLead L "I" (Cell.series [])) ∧
    (∀ (doc : Document) (wf : Waveform), wf ∈ doc.waveforms → wf.waveformType = none →
      isOkE (get_lead_data doc) = false) := by
  refine ⟨rfl, rfl, rfl, ?_, ?_, ?_⟩
  · intro L w u hmem
    simp only [processLeadData, resolveLeadID]
    rw [if_neg hmem]
  · intro L hmem
    simp only [processLeadData, resolveLeadID, resolveBlob, resolveScale]
    rw [show pyUpper (pyStrip "I") = "I" from by decide]
    rw [if_pos hmem]
    rfl
  · intro doc wf hmem hnone
    have hfalse : isOkE (processDoc doc) = false :=
      foldlM_missing_type_err doc.waveforms initLeads ⟨wf, hmem, hnone⟩
    unfold get_lead_data
    cases hp : processDoc doc with
    | error e => rfl
    | ok L =>
        rw [hp] at hfalse
        cases hfalse

-- Witness for C7 amended: concrete instances of the three behavioural
-- conjuncts, including the raising document exNoTypeDoc.
theorem missing_field_defaults_amended_witness :
    processLeadData initLeads ⟨none, none, none⟩ = initLeads ∧
    processLeadData initLeads ⟨some "I", none, none⟩
      = updateLead initLeads "I" (Cell.series []) ∧
    isOkE (get_lead_data exNoTypeDoc) = false :=
  ⟨missing_field_defaults_amended.2.2.2.1 initLeads none none (by decide),
   missing_field_defaults_amended.2.2.2.2.1 initLeads (by decide),
   missing_field_defaults_amended.2.2.2.2.2 exNoTypeDoc ⟨none, []⟩
     (List.mem_singleton.mpr rfl) rfl⟩

-- C3 counterexample: the claim says the entry of the failing lead stays an
-- empty series, but on the document whose V3 blob is invalid the Assembler
-- returns a LeadSet whose V3 entry holds the sentinel error string, which
-- is not the empty series.
unseal Rat.add Rat.sub Rat.mul Rat.inv Nat.gcd in
theorem lead_error_not_contained_counterexample :
    get_lead_data exBadV3Doc = Except.ok exBadV3LS ∧
    lookupLead exBadV3LS "V3"
      = some (Cell.errstr "[Error decoding waveform: Invalid base64-encoded string]") ∧
    Cell.errstr "[Error decoding waveform: Invalid base64-encoded string]"
      ≠ Cell.series [] :=
  ⟨by decide, by decide, by decide⟩

/-- C3 amended: when decoding of the blob of a single lead fails, the failing
entry of that lead in the dictionary becomes the sentinel decode-error marker
(not an empty series), the entry of every other lead is left unchanged by that
node, and the per-lead loop continues with the remaining nodes. -/
theorem lead_error_containment_amended (L : Leads) (idText msg : String)
    (u : Option ℚ)
    (hmem : resolveLeadID (some idText) ∈ L.map Prod.fst) :
    processLeadData L ⟨some idText, some (Blob.invalid msg), u⟩
      = updateLead L (resolveLeadID (some idText))
          (Cell.errstr ("[Error decoding waveform: " ++ msg ++ "]")) ∧
    (∀ k, k ≠ resolveLeadID (some idText) →
      lookupLead (processLeadData L ⟨some idText, some (Blob.invalid msg), u⟩) k
        = lookupLead L k) ∧
    (∀ rest : List LeadData,
      List.foldl processLeadData L (⟨some idText, some (Blob.invalid msg), u⟩ :: rest)
        = List.foldl processLeadData
            (processLeadData L ⟨some idText, some (Blob.invalid msg), u⟩) rest) := by
  have hmain : processLeadData L ⟨some idText, some (Blob.invalid msg), u⟩
      = updateLead L (resolveLeadID (some idText))
          (Cell.errstr ("[Error decoding waveform: " ++ msg ++ "]")) := by
    simp only [processLeadData]
    rw [if_pos hmem]
    rfl
  refine ⟨hmain, ?_, ?_⟩
  · intro k hk
    rw [hmain, lookupLead_update_ne _ _ _ _ hk]
  · intro rest
    rw [List.foldl_cons]

-- Witness for C3 amended at the known lead V3 with an invalid blob.
theorem lead_error_containment_amended_witness :
    processLeadData initLeads ⟨some "V3", some (Blob.invalid "bad"), none⟩
      = updateLead initLeads (resolveLeadID (some "V3"))
          (Cell.errstr ("[Error decoding waveform: " ++ "bad" ++ "]")) :=
  (lead_error_containment_amended initLeads "V3" "bad" none (by decide)).1

-- C10 counterexample: the claim says the Assembler raises whenever I and
-- II hold series of different lengths with one non-empty, but on the
-- document where I has one sample and II has two the derivation broadcasts
-- the length-one lead and the Assembler returns a LeadSet normally.
unseal Rat.add Rat.sub Rat.mul Rat.inv Nat.gcd in
theorem unequal_lengths_no_raise_counterexample :
    get_lead_data exMismatchDoc = Except.ok exMismatchLS ∧
    lookupLead exMismatchLS "I" = some (Cell.series [1]) ∧
    lookupLead exMismatchLS "II" = some (Cell.series [1, 2]) :=
  ⟨by decide, by decide, by decide⟩

/-- C10 amended: when the section loop ends with I and II holding series,
the Assembler returns normally exactly when the two lengths are equal or
one of them is exactly one (numpy length-one broadcasting); it raises from
the derivation arithmetic exactly when the lengths differ with both
different from one. -/
theorem derive_broadcast_amended (doc : Document) (L : Leads) (a b : List ℚ)
    (hp : processDoc doc = Except.ok L)
    (hI : lookupLead L "I" = some (Cell.series a))
    (hII : lookupLead L "II" = some (Cell.series b)) :
    isOkE (get_lead_data doc) = true ↔
      (a.length = b.length ∨ a.length = 1 ∨ b.length = 1) := by
  have hgl : get_lead_data doc = derive L := by
    unfold get_lead_data
    rw [hp]
  rw [hgl]
  exact derive_isOk_iff L a b hI hII

-- Witness for C10 amended: lengths one and two broadcast, so the document
-- exMismatchDoc is assembled without raising.
unseal Rat.add Rat.sub Rat.mul Rat.inv Nat.gcd in
theorem derive_broadcast_amended_witness :
    isOkE (get_lead_data exMismatchDoc) = true :=
  (derive_broadcast_amended exMismatchDoc exMismatchLeads [1] [1, 2]
    (by decide) (by decide) (by decide)).mpr (Or.inr (Or.inl rfl))

/-- C8 amended: a path that is a file is accepted exactly when its suffix
lowercased equals ".xml" (case-insensitive); a path that is a directory is
expanded recursively to the descendant entries whose name matches "*.xml"
case-sensitively, that is, whose name ends in the exact lowercase ".xml"
(the POSIX rglob match), not case-insensitively. -/
theorem iter_xml_files_amended (inputs : List FS) (m : String) :
    m ∈ iter_xml_files inputs ↔
      ((FS.file m ∈ inputs ∧ pyLower (pySuffix m) = ".xml") ∨
        (∃ d cs, FS.dir d cs ∈ inputs ∧ m ∈ descNames cs ∧ endsWithXml m = true)) := by
  induction inputs with
  | nil => simp [iter_xml_files]
  | cons p rest ih =>
      cases p with
      | file n =>
          by_cases hc : pyLower (pySuffix n) = ".xml"
          · simp only [iter_xml_files, if_pos hc, List.mem_append, List.mem_cons,
              List.not_mem_nil, or_false, ih]
            constructor
            · rintro (rfl | hrest)
              · exact Or.inl ⟨Or.inl rfl, hc⟩
              · rcases hrest with ⟨hf, hs⟩ | ⟨d, cs, hd, hm, he⟩
                · exact Or.inl ⟨Or.inr hf, hs⟩
                · exact Or.inr ⟨d, cs, Or.inr hd, hm, he⟩
            · rintro (⟨hf, hs⟩ | ⟨d, cs, hd, hm, he⟩)
              · rcases hf with heq | hf
                · exact Or.inl (FS.file.inj heq)
                · exact Or.inr (Or.inl ⟨hf, hs⟩)
              · rcases hd with heq | hd
                · cases heq
                · exact Or.inr (Or.inr ⟨d, cs, hd, hm, he⟩)
          · simp only [iter_xml_files, if_neg hc, List.nil_append, List.mem_cons,
              List.not_mem_nil, or_false, ih]
            constructor
            · rintro (⟨hf, hs⟩ | ⟨d, cs, hd, hm, he⟩)
              · exact Or.inl ⟨Or.inr hf, hs⟩
              · exact Or.inr ⟨d, cs, Or.inr hd, hm, he⟩
            · rintro (⟨hf, hs⟩ | ⟨d, cs, hd, hm, he⟩)
              · rcases hf with heq | hf
                · cases FS.file.inj heq
                  exact absurd hs hc
                · exact Or.inl ⟨hf, hs⟩
              · rcases hd with heq | hd
                · cases heq
                · exact Or.inr ⟨d, cs, hd, hm, he⟩
      | dir d0 cs0 =>
          simp only [iter_xml_files, rglobXml, List.mem_append, List.mem_filter,
            List.mem_cons, List.not_mem_nil, or_false, ih]
          constructor
          · rintro (⟨hm, he⟩ | hrest)
            · exact Or.inr ⟨d0, cs0, Or.inl rfl, hm, he⟩
            · rcases hrest with ⟨hf, hs⟩ | ⟨d, cs, hd, hm, he⟩
              · exact Or.inl ⟨Or.inr hf, hs⟩
              · exact Or.inr ⟨d, cs, Or.inr hd, hm, he⟩
          · rintro (⟨hf, hs⟩ | ⟨d, cs, hd, hm, he⟩)
            · rcases hf with heq | hf
              · cases heq
              · exact Or.inr (Or.inl ⟨hf, hs⟩)
            · rcases hd with heq | hd
              · obtain ⟨hd1, hd2⟩ := FS.dir.inj heq
                subst hd2
                exact Or.inl ⟨hm, he⟩
              · exact Or.inr (Or.inr ⟨d, cs, hd, hm, he⟩)

-- C8 counterexample: the claim says a directory is expanded to all
-- contained files with a case-insensitive .xml suffix, but a directory
-- containing the file A.XML expands to nothing, even though the same
-- A.XML is accepted when passed directly as a file path.
set_option maxRecDepth 100000 in
unseal ECG.descNames in
theorem dir_expansion_case_counterexample :
    iter_xml_files [FS.dir "d" [FS.file "A.XML"]] = [] ∧
    pyLower (pySuffix "A.XML") = ".xml" ∧
    "A.XML" ∈ descNames [FS.file "A.XML"] ∧
    iter_xml_files [FS.file "A.XML"] = ["A.XML"] :=
  ⟨by decide, by decide, by decide, by decide⟩

-- Witness for C8 amended: a lowercase .xml file path is accepted.
theorem iter_xml_files_amended_witness :
    "a.xml" ∈ iter_xml_files [FS.file "a.xml"] :=
  (iter_xml_files_amended [FS.file "a.xml"] "a.xml").mpr
    (Or.inl ⟨List.mem_singleton.mpr rfl, by decide⟩)

end ECG
